import Mathlib

/-
Verification development for the id3-parser ID3v2 decoding engine
(src/lib/index.d.ts, compiled v2parser module).

Byte buffers are modelled as `List Nat` (one entry per byte).  JavaScript
out-of-range indexing (`bytes[i]` yielding `undefined`) is modelled with
`List.get?`, so `bytes[i] === 0` becomes `bytes.get? i = some 0` and
`bytes[i] !== 0` becomes `bytes.get? i ≠ some 0`.  Decoded strings are
`List Char`.  The while loops of the source are modelled as fuel-consuming
structural recursions whose fuel is initialised with a value that provably
dominates the number of iterations, so that all definitions reduce in the
kernel.
-/

namespace Id3

/-! ## String decoding utilities.

The repository imports these from `../utils`, which is not part of the
given sources; they are modelled from the specification (section 6:
collaborator interfaces) and from the encoding table documented in the
source comment above `parseFrame` (encoding 0 = ISO-8859-1, 1 = UCS-2
with BOM, 2 = UTF-16BE without BOM, 3 = UTF-8). -/

/-- Modelled from the spec: ISO-8859-1 decoding maps every byte to the
Unicode code point of the same value. -/
def latin1Decode (bytes : List Nat) : List Char :=
  bytes.map (fun b => Char.ofNat b)

/-- Modelled from the spec: UCS-2 code units are consumed two bytes at a
time (big endian when `be` is true); a dangling final byte is dropped. -/
def utf16Pairs (be : Bool) : List Nat → List Char
  | b0 :: b1 :: rest =>
      Char.ofNat (if be then b0 * 256 + b1 else b1 * 256 + b0) :: utf16Pairs be rest
  | _ => []

/-- Modelled from the spec: UCS-2 with byte order mark.  A leading FF FE
selects little endian, FE FF big endian; without a mark the bytes are
read big endian. -/
def ucs2BOMDecode (bytes : List Nat) : List Char :=
  match bytes with
  | 0xff :: 0xfe :: rest => utf16Pairs false rest
  | 0xfe :: 0xff :: rest => utf16Pairs true rest
  | _ => utf16Pairs true bytes

/-- Replacement character emitted for malformed UTF-8 input. -/
def uRepl : Char := Char.ofNat 0xfffd

/-- Whether a byte is a UTF-8 continuation byte. -/
def isCont (b : Nat) : Bool := 0x80 ≤ b && b < 0xc0

/-- Fuel-consuming UTF-8 decoding step; each step consumes at least one
byte, so the wrapper passes the buffer length as fuel. -/
def utf8DecodeAux : Nat → List Nat → List Char
  | 0, _ => []
  | fuel + 1, l =>
    match l with
    | [] => []
    | b0 :: rest =>
      if b0 < 0x80 then Char.ofNat b0 :: utf8DecodeAux fuel rest
      else if b0 < 0xc2 then uRepl :: utf8DecodeAux fuel rest
      else if b0 < 0xe0 then
        match rest with
        | b1 :: rest1 =>
            if isCont b1 then
              Char.ofNat ((b0 - 0xc0) * 0x40 + (b1 - 0x80)) :: utf8DecodeAux fuel rest1
            else uRepl :: utf8DecodeAux fuel rest
        | [] => [uRepl]
      else if b0 < 0xf0 then
        match rest with
        | b1 :: b2 :: rest2 =>
            if isCont b1 && isCont b2 then
              Char.ofNat ((b0 - 0xe0) * 0x1000 + (b1 - 0x80) * 0x40 + (b2 - 0x80)) ::
                utf8DecodeAux fuel rest2
            else uRepl :: utf8DecodeAux fuel rest
        | _ => uRepl :: utf8DecodeAux fuel rest
      else if b0 < 0xf5 then
        match rest with
        | b1 :: b2 :: b3 :: rest3 =>
            if isCont b1 && isCont b2 && isCont b3 then
              Char.ofNat ((b0 - 0xf0) * 0x40000 + (b1 - 0x80) * 0x1000 +
                (b2 - 0x80) * 0x40 + (b3 - 0x80)) :: utf8DecodeAux fuel rest3
            else uRepl :: utf8DecodeAux fuel rest
        | _ => uRepl :: utf8DecodeAux fuel rest
      else uRepl :: utf8DecodeAux fuel rest

/-- Modelled from the spec: UTF-8 decoding.  A malformed lead byte or a
missing continuation byte yields the replacement character and the
decoder advances by one byte. -/
def utf8Decode (bytes : List Nat) : List Char :=
  utf8DecodeAux bytes.length bytes

/-- Modelled from the spec: the optional-length slice applied by the
string readers before decoding. -/
def takeOpt (bytes : List Nat) (len : Option Nat) : List Nat :=
  match len with
  | some n => bytes.take n
  | none => bytes

/-- Modelled from the spec: `decodeString(bytes, encoding, optionalLength)`,
dispatching on the frame encoding byte. -/
def readBytesToString (bytes : List Nat) (encoding : Nat) (len : Option Nat) : List Char :=
  match encoding with
  | 1 => ucs2BOMDecode (takeOpt bytes len)
  | 2 => utf16Pairs true (takeOpt bytes len)
  | 3 => utf8Decode (takeOpt bytes len)
  | _ => latin1Decode (takeOpt bytes len)

/-- Modelled from the spec: `decodeLatin1(bytes, optionalLength)`. -/
def readBytesToISO8859 (bytes : List Nat) (len : Option Nat) : List Char :=
  latin1Decode (takeOpt bytes len)

/-- Modelled from the spec: UTF-8 read of an optional-length slice, used
for the tag identity and the 4-character frame identifiers. -/
def readBytesToUTF8 (bytes : List Nat) (len : Option Nat) : List Char :=
  utf8Decode (takeOpt bytes len)

/-- Modelled from the spec: whether an encoding-width null terminator
(two zero bytes for the double-byte encodings 1 and 2, one zero byte
otherwise) sits at position `pos`. -/
def nullAt (bytes : List Nat) (wide : Bool) (pos : Nat) : Bool :=
  if wide then bytes.get? pos = some 0 && bytes.get? (pos + 1) = some 0
  else bytes.get? pos = some 0

/-- Fuel-consuming scan for `getEndpointOfBytes`; the wrapper passes
enough fuel to cover the whole buffer. -/
def getEndpointAux (bytes : List Nat) (wide : Bool) : Nat → Nat → Nat
  | 0, _ => bytes.length
  | fuel + 1, pos =>
      if pos < bytes.length then
        if nullAt bytes wide pos then pos else getEndpointAux bytes wide fuel (pos + 1)
      else bytes.length

/-- Modelled from the spec: `findTerminator(bytes, encoding, startOffset)`
returns the absolute offset of the first encoding-width null terminator at
or after `start`, or the buffer length when none exists.  (That the
returned offset is absolute is pinned by the source itself: the TXXX,
COMM and APIC branches all subtract the start offset from it.) -/
def getEndpointOfBytes (bytes : List Nat) (encoding : Nat) (start : Nat) : Nat :=
  getEndpointAux bytes (encoding = 1 || encoding = 2) (bytes.length + 1) start

/-- Fuel-consuming scan for `skipPaddingZeros`. -/
def skipPaddingAux (bytes : List Nat) : Nat → Nat → Nat
  | 0, offset => offset
  | fuel + 1, offset =>
      if bytes.get? offset = some 0 then skipPaddingAux bytes fuel (offset + 1) else offset

/-- Modelled from the spec: `skipNulls(bytes, offset)` advances the offset
past consecutive zero bytes. -/
def skipPaddingZeros (bytes : List Nat) (offset : Nat) : Nat :=
  skipPaddingAux bytes (bytes.length + 1) offset

/-! ## Static tables.

The repository imports these from `../constants`, which is not part of the
given sources.  They are modelled from the specification, which names the
tables (identifier to semantic tag, identifier multiplicity class, genre
index to name, picture type index to name) without listing their full
contents; the entries below cover the identifiers and indices the
specification mentions. -/

/-- Modelled from the spec: the identifier to semantic-tag table
(`constants/frameTypes`).  Only identifiers present here receive a
semantic tag; all of the identifiers the specification discusses are
included. -/
def frameTypesTable : List (String × String) :=
  [("TIT2", "title"), ("TPE1", "artist"), ("TALB", "album"), ("TCON", "genre"),
   ("TXXX", "userDefinedText"), ("WXXX", "url"), ("COMM", "comments"),
   ("USLT", "lyrics"), ("APIC", "image"), ("IPLS", "involvedPeopleList"),
   ("OWNE", "ownership")]

/-- Lookup in the identifier to semantic-tag table. -/
def frameTypes (id : List Char) : Option String :=
  (frameTypesTable.find? (fun p => p.fst == String.mk id)).map (fun p => p.snd)

/-- Modelled from the spec: the multiplicity-class table
(`constants/frameTypes.FrameTypeValueMap`); repeated comment frames
accumulate, every other identifier overwrites. -/
def frameTypeValueMap (id : List Char) : Option String :=
  if id = ['C', 'O', 'M', 'M'] then some "array" else none

/-- Modelled from the spec: the static genre table (`constants/genres`),
standard ID3 genre list; index 17 is "Rock" as the specification states.
Only an initial segment is needed here. -/
def genresTable : List String :=
  ["Blues", "Classic Rock", "Country", "Dance", "Disco", "Funk", "Grunge",
   "Hip-Hop", "Jazz", "Metal", "New Age", "Oldies", "Other", "Pop", "R&B",
   "Rap", "Reggae", "Rock", "Techno", "Industrial"]

/-- Genre lookup; out-of-range indices yield `none` (JavaScript
`undefined`). -/
def genreAt (n : Nat) : Option String := genresTable.get? n

/-- Modelled from the spec: the picture-type table
(`constants/imageTypes`); index 3 is "Cover (front)" as the specification
states. -/
def imageTypes (n : Nat) : Option String :=
  (["other", "file icon", "other file icon", "Cover (front)",
    "Cover (back)", "leaflet page"] : List String).get? n

/-! ## Synchsafe and frame-size decoding (source: `calcTagSize`,
`calcFrameSize`). -/

/-- Source `calcTagSize`: 7-bit synchsafe size.  The source is only
called with 4-byte slices; out-of-range reads are modelled as 0. -/
def calcTagSize (bytes : List Nat) : Nat :=
  (bytes.getD 0 0 &&& 0x7f) * 0x200000 + (bytes.getD 1 0 &&& 0x7f) * 0x4000 +
    (bytes.getD 2 0 &&& 0x7f) * 0x80 + (bytes.getD 3 0 &&& 0x7f)

/-- Source `calcFrameSize`: plain 8-bit frame size, 0 when fewer than
4 bytes are available. -/
def calcFrameSize (bytes : List Nat) : Nat :=
  if bytes.length < 4 then 0
  else bytes.getD 0 0 * 0x1000000 + bytes.getD 1 0 * 0x10000 +
    bytes.getD 2 0 * 0x100 + bytes.getD 3 0

/-! ## TCON (content type) handling (source: `parseFrame`, TCON special
case). -/

/-- Numeric value of a digit run, as JavaScript unary plus on an
all-digit string. -/
def digitsToNat (ds : List Char) : Nat :=
  ds.foldl (fun a c => a * 10 + (c.toNat - 48)) 0

/-- Fuel-consuming scan for the JavaScript regex global match
`/\(\d+\)/g`: returns the digit runs of all non-overlapping
`(<digits>)` groups, leftmost first; on a failed match at a position the
scan advances by one character, exactly like the regex engine. -/
def tconGroupsAux : Nat → List Char → List (List Char)
  | 0, _ => []
  | fuel + 1, l =>
    match l with
    | [] => []
    | c :: cs =>
      if c = '(' then
        let ds := cs.takeWhile Char.isDigit
        if ds ≠ [] ∧ (cs.drop ds.length).head? = some ')' then
          ds :: tconGroupsAux fuel (cs.drop (ds.length + 1))
        else tconGroupsAux fuel cs
      else tconGroupsAux fuel cs

/-- All `(<digits>)` groups of a string (source: `match(/\(\d+\)/g)`
followed by stripping the parentheses with `slice(1, -1)`). -/
def tconGroups (s : List Char) : List (List Char) :=
  tconGroupsAux s.length s

/-- Whether a character counts as leading whitespace for JavaScript
`parseInt`. -/
def isJsSpace (c : Char) : Bool :=
  c = ' ' || c = '\t' || c = '\n' || c = '\r' || c.toNat = 11 || c.toNat = 12

/-- Modelled from JavaScript `parseInt(s, 10)`: skip leading whitespace,
read an optional sign and then the maximal leading digit run; `none` is
`NaN` (no digits found), trailing characters are ignored. -/
def jsParseInt (s : List Char) : Option Int :=
  let t := s.dropWhile isJsSpace
  let signAndRest : Int × List Char :=
    match t with
    | '-' :: r => (-1, r)
    | '+' :: r => (1, r)
    | _ => (1, t)
  let ds := signAndRest.snd.takeWhile Char.isDigit
  if ds = [] then none else some (signAndRest.fst * (digitsToNat ds : Int))

/-! ## Frame values and the frame content decoder (source:
`parseFrame`). -/

/-- The polymorphic `result.value` of a decoded frame.  `jsUndefined` models a
JavaScript `undefined` value (a genre lookup past the end of the genre
table). -/
inductive FrameValue where
  | text (s : List Char)
  | pair (description value : List Char)
  | comment (language description value : List Char)
  | picture (ptype : String) (mime : List Char) (description : Option (List Char))
      (data : List Nat)
  | ownership (pricePayed dateOfPurch seller : List Char)
  | jsUndefined
deriving DecidableEq

/-- The `result` record built by `parseFrame`: identifier, semantic tag
(`null` when the frame is skipped) and value (`null` when the identifier
is recognised but not handled). -/
structure FrameResult where
  id : List Char
  tag : Option String
  value : Option FrameValue
deriving DecidableEq

/-- Source TCON special case: a string starting with the character `(`
has every `(<digits>)` group looked up in the genre table and the
results comma-joined (an out-of-range lookup joins as the empty string,
as JavaScript `join` renders `undefined`); the match returning `null`
leaves the string unchanged.  Otherwise `parseInt` is applied and a
non-`NaN` result indexes the genre table (yielding `undefined` when out
of range, including negative indices). -/
def tconTransform (s : List Char) : FrameValue :=
  if s.head? = some '(' then
    match tconGroups s with
    | [] => .text s
    | gs => .text (List.intercalate [',']
        (gs.map (fun ds => ((genreAt (digitsToNat ds)).map String.toList).getD [])))
  else
    match jsParseInt s with
    | none => .text s
    | some g =>
        if 0 ≤ g then
          match genreAt g.toNat with
          | some name => .text name.toList
          | none => .jsUndefined
        else .jsUndefined

/-! ## The APIC description scan (source: `parseFrame`, APIC branch). -/

/-- The hard cap of the APIC description scan, 30 MiB
(source literal `36700160`). -/
def apicScanCap : Nat := 36700160

/-- Fuel-consuming model of the APIC `for` loop: the first position at
or after `i` holding a zero byte, `none` when the fuel (the remaining
distance to the cap) runs out first.  An out-of-range read is JavaScript
`undefined`, which is not `=== 0`, so the loop keeps running there. -/
def scanNullIdx (bytes : List Nat) : Nat → Nat → Option Nat
  | 0, _ => none
  | fuel + 1, i =>
      if bytes.get? i = some 0 then some i else scanNullIdx bytes fuel (i + 1)

/-- The byte indices the APIC description scan inspects, in order. -/
def scanVisited (bytes : List Nat) : Nat → Nat → List Nat
  | 0, _ => []
  | fuel + 1, i =>
      if bytes.get? i = some 0 then [i] else i :: scanVisited bytes fuel (i + 1)

/-- Start offset of the APIC description scan as computed by the source:
after the encoding byte, the null-terminated MIME string, its terminator
and the picture-type byte. -/
def apicDescStart (bytes : List Nat) : Nat :=
  11 + (getEndpointOfBytes bytes 0 11 - 11) + 2

/-- Description length produced by the APIC scan loop: `i - start` for
the first zero byte strictly below the cap, and the initialisation value
0 when the loop reaches the cap without a break. -/
def apicDescLen (bytes : List Nat) (start : Nat) : Nat :=
  match scanNullIdx bytes (apicScanCap - start) start with
  | some i => i - start
  | none => 0

/-- Source `parseFrame bytes minor size`.  Field accesses `bytes[9]`,
`bytes[10]` are option-valued reads; `header.flags[1] !== 0` is
`bytes.get? 9 ≠ some 0` (a missing byte is `undefined`, which is
`!== 0`). -/
def parseFrame (bytes : List Nat) (minor : Nat) (size : Nat) : FrameResult :=
  let id := readBytesToUTF8 bytes (some 4)
  if bytes.get? 9 ≠ some 0 then { id := id, tag := none, value := none }
  else
    if frameTypes id = none then { id := id, tag := none, value := none }
    else
      let encoding := (bytes.get? 10).getD 0
      let value : Option FrameValue :=
        if id.head? = some 'T' then
          if id = ['T', 'X', 'X', 'X'] then
            let vlen := getEndpointOfBytes bytes encoding 11 - 11
            let description := readBytesToString (bytes.drop 11) encoding (some vlen)
            let vstart := skipPaddingZeros bytes (11 + vlen + 1)
            some (.pair description (readBytesToString (bytes.drop vstart) encoding none))
          else
            let s := readBytesToString (bytes.drop 11) encoding none
            if id = ['T', 'C', 'O', 'N'] then some (tconTransform s) else some (.text s)
        else if id.head? = some 'W' then
          if id = ['W', 'X', 'X', 'X'] ∧ bytes.get? 10 = some 0 then
            some (.text (readBytesToISO8859 (bytes.drop 11) none))
          else some (.text (readBytesToISO8859 (bytes.drop 10) none))
        else if id = ['C', 'O', 'M', 'M'] ∨ id = ['U', 'S', 'L', 'T'] then
          let language := readBytesToISO8859 (bytes.drop 11) (some 3)
          let vlen := getEndpointOfBytes bytes encoding 14 - 14
          let description := readBytesToString (bytes.drop 14) encoding (some vlen)
          let vstart := skipPaddingZeros bytes (14 + vlen + 1)
          some (.comment language description
            (readBytesToString (bytes.drop vstart) encoding none))
        else if id = ['A', 'P', 'I', 'C'] then
          let mlen := getEndpointOfBytes bytes 0 11 - 11
          let mime := readBytesToString (bytes.drop 11) 0 (some mlen)
          let ptype :=
            match bytes.get? (11 + mlen + 1) with
            | some b => (imageTypes b).getD "other"
            | none => "other"
          let dstart := apicDescStart bytes
          let dlen := apicDescLen bytes dstart
          let description :=
            if dlen = 0 then none
            else some (readBytesToString (bytes.drop dstart) encoding (some dlen))
          let datastart := skipPaddingZeros bytes (dstart + dlen + 1)
          some (.picture ptype mime description (bytes.drop datastart))
        else if id = ['I', 'P', 'L', 'S'] then
          some (.text (readBytesToString (bytes.drop 11) encoding none))
        else if id = ['O', 'W', 'N', 'E'] then
          let vlen := getEndpointOfBytes bytes encoding 11
          let pricePayed := readBytesToISO8859 (bytes.drop 11) (some vlen)
          let dateOfPurch := readBytesToISO8859 (bytes.drop (11 + vlen + 1)) (some 8)
          some (.ownership pricePayed dateOfPurch
            (readBytesToString (bytes.drop (11 + vlen + 1 + 8)) encoding none))
        else none
      { id := id, tag := frameTypes id, value := value }

/-! ## The frame iteration loop (source: `parseV2Frames`).

The source walks an absolute cursor `position`; every slice it takes is
relative to the cursor, so the loop is modelled by recursion on the
remaining bytes.  Three projections of the same loop are defined: the
slices handed to `parseFrame`, the frame results produced, and the
number of loop iterations. -/

/-- Slices handed to the frame content decoder, one per loop step with a
nonzero size field. -/
def frameSlicesAux : Nat → List Nat → List (List Nat)
  | 0, _ => []
  | fuel + 1, bytes =>
    if bytes = [] then []
    else if calcFrameSize (bytes.drop 4) = 0 then []
    else if bytes.take (10 + calcFrameSize (bytes.drop 4)) = [] then []
    else
      bytes.take (10 + calcFrameSize (bytes.drop 4)) ::
        frameSlicesAux fuel
          (bytes.drop (bytes.take (10 + calcFrameSize (bytes.drop 4))).length)

/-- The slices the frame iterator hands to `parseFrame` over a frame
body. -/
def frameSlices (bytes : List Nat) : List (List Nat) :=
  frameSlicesAux bytes.length bytes

/-- Frame results produced by the loop, in order. -/
def parseV2FramesAux (minor : Nat) : Nat → List Nat → List FrameResult
  | 0, _ => []
  | fuel + 1, bytes =>
    if bytes = [] then []
    else if calcFrameSize (bytes.drop 4) = 0 then []
    else if bytes.take (10 + calcFrameSize (bytes.drop 4)) = [] then []
    else
      parseFrame (bytes.take (10 + calcFrameSize (bytes.drop 4))) minor
          (calcFrameSize (bytes.drop 4)) ::
        parseV2FramesAux minor fuel
          (bytes.drop (bytes.take (10 + calcFrameSize (bytes.drop 4))).length)

/-- The list of frame results `parseV2Frames` folds into the tag
record. -/
def parseV2FramesList (bytes : List Nat) (minor : Nat) : List FrameResult :=
  parseV2FramesAux minor bytes.length bytes

/-- Number of executions of the loop body. -/
def frameStepsAux : Nat → List Nat → Nat
  | 0, _ => 0
  | fuel + 1, bytes =>
    if bytes = [] then 0
    else if calcFrameSize (bytes.drop 4) = 0 then 1
    else if bytes.take (10 + calcFrameSize (bytes.drop 4)) = [] then 1
    else
      1 + frameStepsAux fuel
        (bytes.drop (bytes.take (10 + calcFrameSize (bytes.drop 4))).length)

/-- Number of loop iterations the frame iterator performs on a body. -/
def frameSteps (bytes : List Nat) : Nat :=
  frameStepsAux bytes.length bytes

/-! ## The tag assembler (source: the `frame.tag` conditional inside the
`parseV2Frames` loop). -/

/-- A value stored in the tag record: a plain value, or the ordered
array accumulated for array-classified identifiers. -/
inductive TagVal where
  | one (v : Option FrameValue)
  | arr (vs : List (Option FrameValue))
deriving DecidableEq

/-- The mutable `tags` object, as a map from semantic tag name to stored
value. -/
def Tags : Type := String → Option TagVal

/-- One step of the assembler.  For an array-classified identifier an
existing array is pushed onto and a missing entry becomes a singleton
array; for every other identifier the value overwrites.  The case of an
existing non-array entry meeting an array-classified identifier is a
TypeError in the JavaScript source (push on a non-array); it cannot
arise because no identifier shares its semantic tag with an identifier
of the other multiplicity class, and it is modelled as a no-op. -/
def assembleStep (tags : Tags) (frame : FrameResult) : Tags :=
  match frame.tag with
  | none => tags
  | some t =>
    if frameTypeValueMap frame.id = some "array" then
      match tags t with
      | some (.arr vs) => fun k => if k = t then some (.arr (vs ++ [frame.value])) else tags k
      | some (.one _) => tags
      | none => fun k => if k = t then some (.arr [frame.value]) else tags k
    else fun k => if k = t then some (.one frame.value) else tags k

/-- Folding the decoded frames into the tag record, in encounter
order. -/
def assembleTags (frames : List FrameResult) : Tags :=
  frames.foldl assembleStep (fun _ => none)

/-! ## Tag header and top level (source: `parseV2Header`,
`parseV2Data`). -/

/-- The header flag bits. -/
structure V2Flags where
  unsync : Bool
  xheader : Bool
  experimental : Bool
deriving DecidableEq

/-- The version record extracted from the 10-byte header. -/
structure V2Version where
  major : Nat
  minor : Nat
  revision : Nat
  flags : V2Flags
deriving DecidableEq

/-- Source `parseV2Header`: `none` models the `false` return (too short
or identity mismatch). -/
def parseV2Header (bytes : List Nat) : Option V2Version :=
  if bytes.length < 10 then none
  else if readBytesToUTF8 bytes (some 3) = ['I', 'D', '3'] then
    some { major := 2, minor := bytes.getD 3 0, revision := bytes.getD 4 0,
           flags := { unsync := bytes.getD 5 0 &&& 0x80 != 0,
                      xheader := bytes.getD 5 0 &&& 0x40 != 0,
                      experimental := bytes.getD 5 0 &&& 0x20 != 0 } }
  else none

/-- The frame body `parseV2Data` hands to the frame iterator:
`bytes.slice(headerSize, tagSize + headerSize)` with the extended header
skipped when its flag is set. -/
def v2BodyOf (bytes : List Nat) : List Nat :=
  let headerSize := 10 + (if bytes.getD 5 0 &&& 0x40 != 0
    then calcTagSize ((bytes.drop 10).take 4) else 0)
  (bytes.drop headerSize).take (calcTagSize ((bytes.drop 6).take 4))

/-- Outcome of `parseV2Data`: the absence sentinel `false`, the thrown
unsupported-feature error, or the returned tag record. -/
inductive V2Result where
  | absent
  | unsupported
  | tag (version : V2Version) (tags : Tags)

/-- Source `parseV2Data` (exported as `parseV2Tag`): `none` input models
a missing buffer (`!bytes`). -/
def parseV2Data (obytes : Option (List Nat)) : V2Result :=
  match obytes with
  | none => .absent
  | some bytes =>
    if bytes.length < 20 then .absent
    else
      match parseV2Header (bytes.take 10) with
      | none => .absent
      | some version =>
        if version.flags.unsync then .unsupported
        else .tag version (assembleTags (parseV2FramesList (v2BodyOf bytes) version.minor))

/-! ## Claim-side definitions (stated from the wording of the claims,
for comparison with the behaviour of the source definitions above). -/

/-- Claim side (C4): a string that wholly parses as a bare integer. -/
def isBareInt (s : List Char) : Bool :=
  s ≠ [] && s.all Char.isDigit

/-- Claim side (C8): the values of all frames carrying a given semantic
tag, in encounter order. -/
def tagOccurrences (t : String) (frames : List FrameResult) : List (Option FrameValue) :=
  frames.filterMap (fun f => if f.tag = some t then some f.value else none)

/-! ## Character and UTF-8 decoding lemmas. -/

theorem charOfNat_toNat (b : Nat) (h : b < 0xd800) : (Char.ofNat b).toNat = b := by
  have hv : Nat.isValidChar b := Or.inl h
  rw [Char.ofNat, dif_pos hv]
  rfl

theorem charOfNat_eq_iff (b : Nat) (c : Char) (h : b < 0xd800) :
    Char.ofNat b = c ↔ b = c.toNat := by
  constructor
  · intro e
    have := congrArg Char.toNat e
    rwa [charOfNat_toNat b h] at this
  · intro e
    rw [e, Char.ofNat_toNat]

theorem utf8Aux_nil (f : Nat) : utf8DecodeAux f [] = [] := by
  cases f <;> rfl

theorem utf8Aux_ascii (f b : Nat) (rest : List Nat) (h : b < 0x80) :
    utf8DecodeAux (f + 1) (b :: rest) = Char.ofNat b :: utf8DecodeAux f rest := by
  simp [utf8DecodeAux, h]

theorem utf8Aux_inval (f b : Nat) (rest : List Nat) (h1 : 0x80 ≤ b) (h2 : b < 0xc2) :
    utf8DecodeAux (f + 1) (b :: rest) = uRepl :: utf8DecodeAux f rest := by
  have h1' : ¬ b < 0x80 := by omega
  simp [utf8DecodeAux, h1', h2]

theorem utf8Aux_lead2_cont (f b0 b1 : Nat) (rest : List Nat) (h1 : 0xc2 ≤ b0)
    (h2 : b0 < 0xe0) (hc : isCont b1) :
    utf8DecodeAux (f + 1) (b0 :: b1 :: rest) =
      Char.ofNat ((b0 - 0xc0) * 0x40 + (b1 - 0x80)) :: utf8DecodeAux f rest := by
  have ha : ¬ b0 < 0x80 := by omega
  have hb : ¬ b0 < 0xc2 := by omega
  simp [utf8DecodeAux, ha, hb, h2, hc]

theorem utf8Aux_lead2_bad (f b0 b1 : Nat) (rest : List Nat) (h1 : 0xc2 ≤ b0)
    (h2 : b0 < 0xe0) (hc : ¬ isCont b1) :
    utf8DecodeAux (f + 1) (b0 :: b1 :: rest) = uRepl :: utf8DecodeAux f (b1 :: rest) := by
  have ha : ¬ b0 < 0x80 := by omega
  have hb : ¬ b0 < 0xc2 := by omega
  simp [utf8DecodeAux, ha, hb, h2, hc]

theorem utf8Aux_lead3_cont (f b0 b1 b2 : Nat) (rest : List Nat) (h1 : 0xe0 ≤ b0)
    (h2 : b0 < 0xf0) (hc : isCont b1 && isCont b2) :
    utf8DecodeAux (f + 1) (b0 :: b1 :: b2 :: rest) =
      Char.ofNat ((b0 - 0xe0) * 0x1000 + (b1 - 0x80) * 0x40 + (b2 - 0x80)) ::
        utf8DecodeAux f rest := by
  have ha : ¬ b0 < 0x80 := by omega
  have hb : ¬ b0 < 0xc2 := by omega
  have hcc : ¬ b0 < 0xe0 := by omega
  simp [utf8DecodeAux, ha, hb, hcc, h2, hc]

theorem utf8Aux_lead3_bad (f b0 b1 b2 : Nat) (rest : List Nat) (h1 : 0xe0 ≤ b0)
    (h2 : b0 < 0xf0) (hc : ¬ (isCont b1 && isCont b2)) :
    utf8DecodeAux (f + 1) (b0 :: b1 :: b2 :: rest) =
      uRepl :: utf8DecodeAux f (b1 :: b2 :: rest) := by
  have ha : ¬ b0 < 0x80 := by omega
  have hb : ¬ b0 < 0xc2 := by omega
  have hcc : ¬ b0 < 0xe0 := by omega
  simp [utf8DecodeAux, ha, hb, hcc, h2, hc]

theorem utf8Aux_hi_pair (f b0 b2 : Nat) (h1 : 0xe0 ≤ b0) :
    utf8DecodeAux (f + 1) [b0, b2] = uRepl :: utf8DecodeAux f [b2] := by
  have ha : ¬ b0 < 0x80 := by omega
  have hb : ¬ b0 < 0xc2 := by omega
  have hcc : ¬ b0 < 0xe0 := by omega
  by_cases h4 : b0 < 0xf0
  · simp [utf8DecodeAux, ha, hb, hcc, h4]
  · by_cases h5 : b0 < 0xf5 <;> simp [utf8DecodeAux, ha, hb, hcc, h4, h5]

theorem utf8Aux_hi4_triple (f b0 b1 b2 : Nat) (h1 : 0xf0 ≤ b0) :
    utf8DecodeAux (f + 1) [b0, b1, b2] = uRepl :: utf8DecodeAux f [b1, b2] := by
  have ha : ¬ b0 < 0x80 := by omega
  have hb : ¬ b0 < 0xc2 := by omega
  have hcc : ¬ b0 < 0xe0 := by omega
  have hd : ¬ b0 < 0xf0 := by omega
  by_cases h5 : b0 < 0xf5 <;> simp [utf8DecodeAux, ha, hb, hcc, hd, h5]

theorem utf8Aux_one (f b : Nat) :
    utf8DecodeAux (f + 1) [b] = [if b < 0x80 then Char.ofNat b else uRepl] := by
  by_cases h1 : b < 0x80
  · simp [utf8DecodeAux, h1, utf8Aux_nil]
  · by_cases h2 : b < 0xc2
    · simp [utf8DecodeAux, h1, h2, utf8Aux_nil]
    · by_cases h3 : b < 0xe0
      · simp [utf8DecodeAux, h1, h2, h3, utf8Aux_nil]
      · by_cases h4 : b < 0xf0
        · simp [utf8DecodeAux, h1, h2, h3, h4, utf8Aux_nil]
        · by_cases h5 : b < 0xf5 <;> simp [utf8DecodeAux, h1, h2, h3, h4, h5, utf8Aux_nil]

theorem utf8Aux_two (f b1 b2 : Nat) :
    utf8DecodeAux (f + 1 + 1) [b1, b2] = ['D', '3'] ↔ b1 = 68 ∧ b2 = 51 := by
  constructor
  · intro h
    by_cases h1 : b1 < 0x80
    · rw [utf8Aux_ascii _ _ _ h1, List.cons_eq_cons] at h
      obtain ⟨hh, ht⟩ := h
      have hb1 : b1 = 68 := by
        rw [charOfNat_eq_iff b1 'D' (by omega)] at hh
        simpa using hh
      refine ⟨hb1, ?_⟩
      rw [utf8Aux_one, List.cons_eq_cons] at ht
      obtain ⟨hh2, _⟩ := ht
      split at hh2
      · rw [charOfNat_eq_iff b2 '3' (by omega)] at hh2
        simpa using hh2
      · exact absurd hh2 (by decide)
    · exfalso
      by_cases h2 : b1 < 0xc2
      · rw [utf8Aux_inval _ _ _ (by omega) h2, List.cons_eq_cons] at h
        exact absurd h.1 (by decide)
      · by_cases h3 : b1 < 0xe0
        · by_cases hc : isCont b2
          · rw [utf8Aux_lead2_cont _ _ _ _ (by omega) h3 hc, utf8Aux_nil] at h
            have := congrArg List.length h
            simp at this
          · rw [utf8Aux_lead2_bad _ _ _ _ (by omega) h3 hc, List.cons_eq_cons] at h
            exact absurd h.1 (by decide)
        · rw [utf8Aux_hi_pair _ _ _ (by omega), List.cons_eq_cons] at h
          exact absurd h.1 (by decide)
  · rintro ⟨rfl, rfl⟩
    rw [utf8Aux_ascii _ _ _ (by norm_num), utf8Aux_one]
    decide

theorem utf8Aux_three (f b0 b1 b2 : Nat) :
    utf8DecodeAux (f + 1 + 1 + 1) [b0, b1, b2] = ['I', 'D', '3'] ↔
      b0 = 73 ∧ b1 = 68 ∧ b2 = 51 := by
  constructor
  · intro h
    by_cases h1 : b0 < 0x80
    · rw [utf8Aux_ascii _ _ _ h1, List.cons_eq_cons] at h
      obtain ⟨hh, ht⟩ := h
      have hb0 : b0 = 73 := by
        rw [charOfNat_eq_iff b0 'I' (by omega)] at hh
        simpa using hh
      exact ⟨hb0, (utf8Aux_two f b1 b2).mp ht⟩
    · exfalso
      by_cases h2 : b0 < 0xc2
      · rw [utf8Aux_inval _ _ _ (by omega) h2, List.cons_eq_cons] at h
        exact absurd h.1 (by decide)
      · by_cases h3 : b0 < 0xe0
        · by_cases hc : isCont b1
          · rw [utf8Aux_lead2_cont _ _ _ _ (by omega) h3 hc, List.cons_eq_cons] at h
            have ht := congrArg List.length h.2
            rw [utf8Aux_one] at ht
            simp at ht
          · rw [utf8Aux_lead2_bad _ _ _ _ (by omega) h3 hc, List.cons_eq_cons] at h
            exact absurd h.1 (by decide)
        · by_cases h4 : b0 < 0xf0
          · by_cases hc : isCont b1 && isCont b2
            · rw [utf8Aux_lead3_cont _ _ _ _ _ (by omega) h4 hc, utf8Aux_nil] at h
              have := congrArg List.length h
              simp at this
            · rw [utf8Aux_lead3_bad _ _ _ _ _ (by omega) h4 hc, List.cons_eq_cons] at h
              exact absurd h.1 (by decide)
          · rw [utf8Aux_hi4_triple _ _ _ _ (by omega), List.cons_eq_cons] at h
            exact absurd h.1 (by decide)
  · rintro ⟨rfl, rfl, rfl⟩
    rw [utf8Aux_ascii _ _ _ (by norm_num), utf8Aux_ascii _ _ _ (by norm_num), utf8Aux_one]
    decide

theorem utf8_three (b0 b1 b2 : Nat) :
    utf8Decode [b0, b1, b2] = ['I', 'D', '3'] ↔ b0 = 73 ∧ b1 = 68 ∧ b2 = 51 :=
  utf8Aux_three 0 b0 b1 b2

/-! ## Header lemmas. -/

theorem identity_of_header (bs : List Nat) :
    readBytesToUTF8 (bs.take 10) (some 3) = utf8Decode (bs.take 3) := by
  show utf8Decode ((bs.take 10).take 3) = _
  rw [List.take_take]
  norm_num

theorem take10_length (bs : List Nat) (h : 20 ≤ bs.length) : (bs.take 10).length = 10 := by
  rw [List.length_take]
  omega

theorem take10_getD (bs : List Nat) (i : Nat) (hi : i < 10) :
    (bs.take 10).getD i 0 = bs.getD i 0 := by
  rw [List.getD_eq_getElem?_getD, List.getD_eq_getElem?_getD, List.getElem?_take, if_pos hi]

/-- C6: a buffer of at least 20 bytes whose first three bytes are the
ASCII sequence ID3 and whose flag byte (index 5) has bit 0x80 set makes
`parseV2Data` raise the unsupported-feature error, never the absence
sentinel and never a tag record. -/
theorem claim_C6 (bs : List Nat) (fb : Nat) (h20 : 20 ≤ bs.length)
    (hid : bs.take 3 = [73, 68, 51]) (h5 : bs.get? 5 = some fb)
    (hfl : fb &&& 0x80 ≠ 0) :
    parseV2Data (some bs) = V2Result.unsupported := by
  have hgD : bs.getD 5 0 = fb := by
    rw [List.getD_eq_getElem?_getD, ← List.get?_eq_getElem?, h5]
    rfl
  have hID : readBytesToUTF8 (bs.take 10) (some 3) = ['I', 'D', '3'] := by
    rw [identity_of_header, hid]
    rfl
  simp only [parseV2Data]
  rw [if_neg (by omega)]
  rw [parseV2Header, take10_length bs h20]
  rw [if_neg (by norm_num), if_pos hID]
  have hu : ((bs.take 10).getD 5 0 &&& 0x80 != 0) = true := by
    rw [take10_getD bs 5 (by norm_num), hgD]
    exact bne_iff_ne.mpr hfl
  simp only [hu]
  rfl

/-- C7: `parseV2Data` returns the absence sentinel exactly when the
buffer is missing, shorter than 20 bytes, or does not begin with the
ASCII bytes of ID3; in every other case it yields the
unsupported-feature error or a tag record (the only other outcomes of
`V2Result`). -/
theorem claim_C7 (obs : Option (List Nat)) :
    parseV2Data obs = V2Result.absent ↔
      obs = none ∨ ∃ bs, obs = some bs ∧
        (bs.length < 20 ∨ bs.take 3 ≠ [73, 68, 51]) := by
  cases obs with
  | none => simp [parseV2Data]
  | some bs =>
    have hR : (some bs = none ∨ ∃ bs2, some bs = some bs2 ∧
        (bs2.length < 20 ∨ bs2.take 3 ≠ [73, 68, 51])) ↔
        (bs.length < 20 ∨ bs.take 3 ≠ [73, 68, 51]) := by
      simp
    rw [hR]
    by_cases h20 : bs.length < 20
    · simp [parseV2Data, h20]
    · match bs, h20 with
      | [], h20 => exact absurd (by simp) h20
      | [b0], h20 => exact absurd (by simp) h20
      | [b0, b1], h20 => exact absurd (by simp) h20
      | b0 :: b1 :: b2 :: t, h20 =>
        have h20' : 20 ≤ (b0 :: b1 :: b2 :: t).length := by omega
        have htk : (b0 :: b1 :: b2 :: t).take 3 = [b0, b1, b2] := rfl
        simp only [parseV2Data, if_neg h20, htk]
        rw [parseV2Header, take10_length _ h20']
        rw [if_neg (by norm_num)]
        rw [identity_of_header, htk]
        by_cases hid : b0 = 73 ∧ b1 = 68 ∧ b2 = 51
        · rw [if_pos ((utf8_three b0 b1 b2).mpr hid)]
          obtain ⟨rfl, rfl, rfl⟩ := hid
          split
          next heq => exact absurd heq (by simp)
          next version heq =>
            injection heq with hv
            subst hv
            have hl : 17 ≤ t.length := by
              have h := h20'
              simp only [List.length_cons] at h
              omega
            split <;> simp <;> omega
        · rw [if_neg (fun hc => hid ((utf8_three b0 b1 b2).mp hc))]
          constructor
          · intro _
            right
            intro hc
            rw [List.cons_eq_cons, List.cons_eq_cons, List.cons_eq_cons] at hc
            exact hid ⟨hc.1, hc.2.1, hc.2.2.1⟩
          · intro _
            rfl

/-- Witness buffer for C6: valid header, unsynchronisation bit set. -/
def c6Buf : List Nat :=
  [73, 68, 51, 3, 0, 0x80, 0, 0, 0, 0, 0, 0, 0, 0, 0, 0, 0, 0, 0, 0]

/-- Witness for C6 at a concrete 20-byte buffer. -/
theorem claim_C6_witness : parseV2Data (some c6Buf) = V2Result.unsupported :=
  claim_C6 c6Buf 0x80 (by decide) (by decide) (by decide) (by decide)

/-! ## Frame iterator lemmas. -/

theorem frameSlicesAux_nil (f : Nat) : frameSlicesAux f [] = [] := by
  cases f <;> simp [frameSlicesAux]

theorem parseV2FramesAux_nil (minor f : Nat) : parseV2FramesAux minor f [] = [] := by
  cases f <;> simp [parseV2FramesAux]

theorem frameStepsAux_nil (f : Nat) : frameStepsAux f [] = 0 := by
  cases f <;> simp [frameStepsAux]

theorem getD_take (l : List Nat) (n i : Nat) (h : i < n) :
    (l.take n).getD i 0 = l.getD i 0 := by
  rw [List.getD_eq_getElem?_getD, List.getD_eq_getElem?_getD, List.getElem?_take, if_pos h]

theorem getD_append (l r : List Nat) (i : Nat) (h : i < l.length) :
    (l ++ r).getD i 0 = l.getD i 0 := by
  rw [List.getD_eq_getElem?_getD, List.getD_eq_getElem?_getD, List.getElem?_append_left h]

theorem calcFrameSize_pos_len (l : List Nat) (h : calcFrameSize l ≠ 0) : 4 ≤ l.length := by
  by_contra hc
  rw [calcFrameSize, if_pos (by omega)] at h
  exact h rfl

theorem calcFrameSize_take (l : List Nat) (n : Nat) (h4 : 4 ≤ n) (hl : 4 ≤ l.length) :
    calcFrameSize (l.take n) = calcFrameSize l := by
  rw [calcFrameSize, calcFrameSize, List.length_take]
  rw [if_neg (by omega), if_neg (by omega)]
  rw [getD_take l n 0 (by omega), getD_take l n 1 (by omega), getD_take l n 2 (by omega),
    getD_take l n 3 (by omega)]

theorem calcFrameSize_append (l r : List Nat) (h : 4 ≤ l.length) :
    calcFrameSize (l ++ r) = calcFrameSize l := by
  rw [calcFrameSize, calcFrameSize, List.length_append]
  rw [if_neg (by omega), if_neg (by omega)]
  rw [getD_append l r 0 (by omega), getD_append l r 1 (by omega),
    getD_append l r 2 (by omega), getD_append l r 3 (by omega)]

/-- The declared size read from a handed slice agrees with the size the
loop read from the remaining bytes. -/
theorem slice_declared_size (bytes : List Nat)
    (h : calcFrameSize (bytes.drop 4) ≠ 0) :
    calcFrameSize ((bytes.take (10 + calcFrameSize (bytes.drop 4))).drop 4) =
      calcFrameSize (bytes.drop 4) := by
  have h4 : 4 ≤ (bytes.drop 4).length := calcFrameSize_pos_len _ h
  rw [List.drop_take]
  exact calcFrameSize_take _ _ (by omega) h4

theorem parseV2FramesAux_eq_map (f : Nat) :
    ∀ (bytes : List Nat) (minor : Nat), bytes.length ≤ f →
      parseV2FramesAux minor f bytes = (frameSlicesAux f bytes).map
        (fun s => parseFrame s minor (calcFrameSize (s.drop 4))) := by
  induction f with
  | zero =>
    intro bytes minor _
    simp [parseV2FramesAux, frameSlicesAux]
  | succ f ih =>
    intro bytes minor h
    by_cases hb : bytes = []
    · subst hb
      simp [parseV2FramesAux, frameSlicesAux]
    · by_cases hs : calcFrameSize (bytes.drop 4) = 0
      · simp [parseV2FramesAux, frameSlicesAux, hb, hs]
      · have htk : bytes.take (10 + calcFrameSize (bytes.drop 4)) ≠ [] := by
          rw [Ne, List.take_eq_nil_iff]
          push_neg
          exact ⟨by omega, hb⟩
        simp only [parseV2FramesAux, frameSlicesAux, if_neg hb, if_neg hs, if_neg htk,
          List.map_cons]
        have hlen : 1 ≤ (bytes.take (10 + calcFrameSize (bytes.drop 4))).length := by
          have := List.length_pos.mpr htk
          omega
        rw [List.cons_eq_cons]
        refine ⟨?_, ?_⟩
        · rw [slice_declared_size bytes hs]
        · apply ih
          rw [List.length_drop]
          have hbl : 0 < bytes.length := List.length_pos.mpr hb
          omega

theorem frameSlicesAux_bounds (f : Nat) :
    ∀ (bytes : List Nat) (i : Nat) (s : List Nat),
      (frameSlicesAux f bytes).get? i = some s →
      0 < calcFrameSize (s.drop 4) ∧ s.length ≤ 10 + calcFrameSize (s.drop 4) ∧
        (s.length ≠ 10 + calcFrameSize (s.drop 4) → i + 1 = (frameSlicesAux f bytes).length) := by
  induction f with
  | zero =>
    intro bytes i s h
    simp [frameSlicesAux] at h
  | succ f ih =>
    intro bytes i s h
    by_cases hb : bytes = []
    · subst hb
      simp [frameSlicesAux] at h
    · by_cases hz : calcFrameSize (bytes.drop 4) = 0
      · simp [frameSlicesAux, hb, hz] at h
      · have htk : bytes.take (10 + calcFrameSize (bytes.drop 4)) ≠ [] := by
          rw [Ne, List.take_eq_nil_iff]
          push_neg
          exact ⟨by omega, hb⟩
        simp only [frameSlicesAux, if_neg hb, if_neg hz, if_neg htk] at h ⊢
        cases i with
        | zero =>
          rw [List.get?_cons_zero, Option.some.injEq] at h
          subst h
          have hds := slice_declared_size bytes hz
          refine ⟨by omega, ?_, ?_⟩
          · rw [hds, List.length_take]
            omega
          · intro hne
            rw [hds] at hne
            have hlt : (bytes.take (10 + calcFrameSize (bytes.drop 4))).length =
                bytes.length := by
              rw [List.length_take] at hne ⊢
              omega
            rw [hlt, List.drop_length, frameSlicesAux_nil]
            rfl
        | succ i =>
          rw [List.get?_cons_succ] at h
          obtain ⟨h1, h2, h3⟩ := ih _ i s h
          refine ⟨h1, h2, ?_⟩
          intro hne
          have := h3 hne
          simp only [List.length_cons]
          omega

/-- C1 (amended): every slice the iterator hands to the decoder has a
nonzero declared size and length at most 10 plus that size; a strictly
shorter (truncated) slice can only be the final one; and every handed
slice, the truncated one included, is decoded by `parseFrame` — the
iterator does not stop short of decoding a partial frame. -/
theorem claim_C1 (body : List Nat) (minor : Nat) :
    parseV2FramesList body minor = (frameSlices body).map
        (fun s => parseFrame s minor (calcFrameSize (s.drop 4))) ∧
      ∀ i s, (frameSlices body).get? i = some s →
        0 < calcFrameSize (s.drop 4) ∧ s.length ≤ 10 + calcFrameSize (s.drop 4) ∧
          (s.length ≠ 10 + calcFrameSize (s.drop 4) → i + 1 = (frameSlices body).length) := by
  constructor
  · exact parseV2FramesAux_eq_map body.length body minor le_rfl
  · intro i s h
    exact frameSlicesAux_bounds body.length body i s h

/-- Witness body for C1: one complete 11-byte frame. -/
def c1WBody : List Nat := [84, 65, 76, 66, 0, 0, 0, 1, 0, 0, 0]

/-- Witness for C1 applied to a concrete body and its first slice. -/
theorem claim_C1_witness :
    (parseV2FramesList c1WBody 3 = (frameSlices c1WBody).map
        (fun s => parseFrame s 3 (calcFrameSize (s.drop 4)))) ∧
      (0 < calcFrameSize (c1WBody.drop 4) ∧
        c1WBody.length ≤ 10 + calcFrameSize (c1WBody.drop 4) ∧
        (c1WBody.length ≠ 10 + calcFrameSize (c1WBody.drop 4) →
          0 + 1 = (frameSlices c1WBody).length)) :=
  ⟨(claim_C1 c1WBody 3).1, (claim_C1 c1WBody 3).2 0 c1WBody (by decide)⟩

/-- Counterexample body for C1 as stated: a frame declaring size 5 with
only 2 payload bytes present (12 bytes remain, 15 required). -/
def c1CexBody : List Nat := [84, 65, 76, 66, 0, 0, 0, 5, 0, 0, 0, 97]

/-- Counterexample buffer for C1: valid ID3v2 header declaring a 12-byte
body, followed by that truncated body. -/
def c1CexBuf : List Nat := [73, 68, 51, 3, 0, 0, 0, 0, 0, 12] ++ c1CexBody

/-- Counterexample to C1 as stated: on a buffer with a valid header the
iterator hands the decoder a 12-byte slice whose declared size is 5
(10 + 5 = 15 ≠ 12), and that partial frame is decoded rather than
iteration stopping without decoding it. -/
theorem claim_C1_cex :
    (∃ v tg, parseV2Data (some c1CexBuf) = V2Result.tag v tg) ∧
      frameSlices (v2BodyOf c1CexBuf) = [c1CexBody] ∧
      c1CexBody.length = 12 ∧ calcFrameSize (c1CexBody.drop 4) = 5 ∧
      parseV2FramesList (v2BodyOf c1CexBuf) 3 = [parseFrame c1CexBody 3 5] :=
  ⟨⟨_, _, rfl⟩, by decide, by decide, by decide, by decide⟩

/-- C5: the frame iteration loop always terminates, in at most
N / 11 + 1 iterations for a body of N bytes. -/
theorem claim_C5 (body : List Nat) : frameSteps body ≤ body.length / 11 + 1 := by
  suffices h : ∀ (f : Nat) (bytes : List Nat), bytes.length ≤ f →
      frameStepsAux f bytes ≤ bytes.length / 11 + 1 by
    exact h body.length body le_rfl
  intro f
  induction f with
  | zero =>
    intro bytes _
    simp [frameStepsAux]
  | succ f ih =>
    intro bytes h
    by_cases hb : bytes = []
    · subst hb
      simp [frameStepsAux]
    · by_cases hz : calcFrameSize (bytes.drop 4) = 0
      · simp only [frameStepsAux, if_neg hb, if_pos hz]
        omega
      · have htk : bytes.take (10 + calcFrameSize (bytes.drop 4)) ≠ [] := by
          rw [Ne, List.take_eq_nil_iff]
          push_neg
          exact ⟨by omega, hb⟩
        simp only [frameStepsAux, if_neg hb, if_neg hz, if_neg htk]
        have hbl : 0 < bytes.length := List.length_pos.mpr hb
        have hk : (bytes.take (10 + calcFrameSize (bytes.drop 4))).length =
            min (10 + calcFrameSize (bytes.drop 4)) bytes.length := List.length_take _ _
        by_cases h11 : 11 ≤ (bytes.take (10 + calcFrameSize (bytes.drop 4))).length
        · have hrec := ih (bytes.drop (bytes.take (10 + calcFrameSize (bytes.drop 4))).length)
            (by rw [List.length_drop]; omega)
          rw [List.length_drop] at hrec
          omega
        · have hkN : (bytes.take (10 + calcFrameSize (bytes.drop 4))).length =
              bytes.length := by omega
          rw [hkN, List.drop_length, frameStepsAux_nil]
          omega

/-! ## Skipped frames (C9). -/

theorem parseV2FramesAux_fuel (minor : Nat) (f1 : Nat) :
    ∀ (f2 : Nat) (bytes : List Nat), bytes.length ≤ f1 → bytes.length ≤ f2 →
      parseV2FramesAux minor f1 bytes = parseV2FramesAux minor f2 bytes := by
  induction f1 with
  | zero =>
    intro f2 bytes h1 _
    have hb : bytes = [] := by
      cases bytes with
      | nil => rfl
      | cons a l => simp at h1
    subst hb
    rw [parseV2FramesAux_nil, parseV2FramesAux_nil]
  | succ f ih =>
    intro f2 bytes h1 h2
    cases f2 with
    | zero =>
      have hb : bytes = [] := by
        cases bytes with
        | nil => rfl
        | cons a l => simp at h2
      subst hb
      rw [parseV2FramesAux_nil, parseV2FramesAux_nil]
    | succ g =>
      by_cases hb : bytes = []
      · subst hb
        rw [parseV2FramesAux_nil, parseV2FramesAux_nil]
      · by_cases hz : calcFrameSize (bytes.drop 4) = 0
        · simp [parseV2FramesAux, hb, hz]
        · have htk : bytes.take (10 + calcFrameSize (bytes.drop 4)) ≠ [] := by
            rw [Ne, List.take_eq_nil_iff]
            push_neg
            exact ⟨by omega, hb⟩
          have hlen : 1 ≤ (bytes.take (10 + calcFrameSize (bytes.drop 4))).length := by
            have := List.length_pos.mpr htk
            omega
          have hbl : 0 < bytes.length := List.length_pos.mpr hb
          simp only [parseV2FramesAux, if_neg hb, if_neg hz, if_neg htk]
          rw [List.cons_eq_cons]
          refine ⟨rfl, ?_⟩
          apply ih
          · rw [List.length_drop]; omega
          · rw [List.length_drop]; omega

theorem assembleStep_tagNone (tags : Tags) (fr : FrameResult) (h : fr.tag = none) :
    assembleStep tags fr = tags := by
  rw [assembleStep, h]

/-- C9: a frame whose second flag byte exists and is nonzero yields no
semantic tag, the cursor still advances over its full declared span, and
the following frames are decoded (and assembled) exactly as they would
be with the skipped frame absent. -/
theorem claim_C9 (frame rest : List Nat) (minor fb : Nat)
    (hlen : frame.length = 10 + calcFrameSize (frame.drop 4))
    (hsz : calcFrameSize (frame.drop 4) ≠ 0)
    (h9 : frame.get? 9 = some fb) (hfb : fb ≠ 0) :
    (parseFrame frame minor (calcFrameSize (frame.drop 4))).tag = none ∧
      parseV2FramesList (frame ++ rest) minor =
        parseFrame frame minor (calcFrameSize (frame.drop 4)) ::
          parseV2FramesList rest minor ∧
      assembleTags (parseV2FramesList (frame ++ rest) minor) =
        assembleTags (parseV2FramesList rest minor) := by
  have h4 : 4 ≤ (frame.drop 4).length := calcFrameSize_pos_len _ hsz
  have hfl : 11 ≤ frame.length := by
    rw [List.length_drop] at h4
    omega
  have hfne : frame ≠ [] := by
    intro hc
    rw [hc] at hfl
    simp at hfl
  have htagNone : (parseFrame frame minor (calcFrameSize (frame.drop 4))).tag = none := by
    rw [parseFrame]
    rw [if_pos (by rw [h9]; simp [hfb])]
  have hC : calcFrameSize ((frame ++ rest).drop 4) = calcFrameSize (frame.drop 4) := by
    rw [List.drop_append_of_le_length (by omega)]
    exact calcFrameSize_append _ _ h4
  have hne : frame ++ rest ≠ [] := by
    intro hc
    exact hfne (List.append_eq_nil.mp hc).1
  have hlist : parseV2FramesList (frame ++ rest) minor =
      parseFrame frame minor (calcFrameSize (frame.drop 4)) ::
        parseV2FramesList rest minor := by
    rw [parseV2FramesList]
    have hL : (frame ++ rest).length = (frame.length - 1 + rest.length) + 1 := by
      rw [List.length_append]
      omega
    rw [hL]
    simp only [parseV2FramesAux]
    rw [if_neg hne, hC]
    rw [if_neg hsz, ← hlen, List.take_left]
    rw [if_neg hfne, List.drop_left]
    rw [List.cons_eq_cons]
    refine ⟨rfl, ?_⟩
    rw [parseV2FramesList]
    exact parseV2FramesAux_fuel minor _ _ rest (by omega) le_rfl
  refine ⟨htagNone, hlist, ?_⟩
  rw [hlist]
  rw [assembleTags, assembleTags, List.foldl_cons, assembleStep_tagNone _ _ htagNone]

/-- Witness frame for C9: an 11-byte TALB frame with second flag byte
1. -/
def c9Frame : List Nat := [84, 65, 76, 66, 0, 0, 0, 1, 0, 1, 0]

/-- Witness tail for C9: an 11-byte TIT2 frame with clear flags. -/
def c9Rest : List Nat := [84, 73, 84, 50, 0, 0, 0, 1, 0, 0, 65]

/-- Witness for C9 at a concrete skipped frame followed by a decoded
frame. -/
theorem claim_C9_witness :
    (parseFrame c9Frame 3 (calcFrameSize (c9Frame.drop 4))).tag = none ∧
      parseV2FramesList (c9Frame ++ c9Rest) 3 =
        parseFrame c9Frame 3 (calcFrameSize (c9Frame.drop 4)) ::
          parseV2FramesList c9Rest 3 ∧
      assembleTags (parseV2FramesList (c9Frame ++ c9Rest) 3) =
        assembleTags (parseV2FramesList c9Rest 3) :=
  claim_C9 c9Frame c9Rest 3 1 (by decide) (by decide) (by decide) (by decide)

/-! ## The APIC scan bound (C2). -/

theorem scanVisited_bounds (bytes : List Nat) (fuel : Nat) :
    ∀ i j, j ∈ scanVisited bytes fuel i → i ≤ j ∧ j < i + fuel := by
  induction fuel with
  | zero =>
    intro i j h
    simp [scanVisited] at h
  | succ f ih =>
    intro i j h
    rw [scanVisited] at h
    split at h
    · rw [List.mem_singleton] at h
      omega
    · rw [List.mem_cons] at h
      rcases h with h | h
      · omega
      · have := ih (i + 1) j h
        omega

/-- The index the scan loop breaks at is one of the indices it
inspected. -/
theorem scanNullIdx_mem (bytes : List Nat) (fuel : Nat) :
    ∀ i j, scanNullIdx bytes fuel i = some j → j ∈ scanVisited bytes fuel i := by
  induction fuel with
  | zero =>
    intro i j h
    simp [scanNullIdx] at h
  | succ f ih =>
    intro i j h
    rw [scanNullIdx] at h
    rw [scanVisited]
    split at h <;> split
    · rw [Option.some.injEq] at h
      rw [h]
      exact List.mem_singleton.mpr rfl
    · next hz hnz => exact absurd hz hnz
    · next hnz hz => exact absurd hz hnz
    · exact List.mem_cons_of_mem _ (ih (i + 1) j h)

/-- C2: every byte index the APIC description scan inspects, starting at
the offset the decoder computes for the description, lies strictly below
the 30 MiB cap — on any input, including inputs with no terminator. -/
theorem claim_C2 (bytes : List Nat) (j : Nat)
    (h : j ∈ scanVisited bytes (apicScanCap - apicDescStart bytes) (apicDescStart bytes)) :
    j < apicScanCap := by
  have := scanVisited_bounds bytes (apicScanCap - apicDescStart bytes) (apicDescStart bytes) j h
  omega

/-- Witness APIC frame for C2: MIME i/p, picture type 3, one-character
description with its terminator at index 17. -/
def c2Bytes : List Nat :=
  [65, 80, 73, 67, 0, 0, 0, 10, 0, 0, 0, 105, 47, 112, 0, 3, 100, 0, 0, 1, 2]

/-- Witness for C2 at a concrete APIC frame and inspected index. -/
theorem claim_C2_witness :
    17 ∈ scanVisited c2Bytes (apicScanCap - apicDescStart c2Bytes) (apicDescStart c2Bytes) ∧
      17 < apicScanCap :=
  ⟨by decide, claim_C2 c2Bytes 17 (by decide)⟩

/-! ## The OWNE decoder (C3). -/

/-- OWNE frame: encoding 0, price "1" terminated by a null, date
"20200101", seller "Bob". -/
def c3Frame : List Nat :=
  [79, 87, 78, 69, 0, 0, 0, 14, 0, 0, 0, 49, 0, 50, 48, 50, 48, 48, 49, 48, 49, 66, 111, 98]

/-- C3: evaluating the OWNE decoder at the frame above.  The source
stores the absolute terminator offset (12) in `variableLength` without
subtracting the start offset 11, so `pricePayed` swallows 12 bytes
(price, its terminator, the whole date and part of the seller), and the
date and seller are then read past the end of the frame as empty
strings — not the `{"1", "20200101", "Bob"}` the specification
describes. -/
theorem claim_C3 :
    parseFrame c3Frame 3 14 =
      { id := ['O', 'W', 'N', 'E'], tag := some "ownership",
        value := some (.ownership
          ('1' :: Char.ofNat 0 :: "20200101Bo".toList) [] []) } ∧
      (parseFrame c3Frame 3 14).value ≠
        some (.ownership "1".toList "20200101".toList "Bob".toList) := by
  refine ⟨by decide, by decide⟩

/-! ## WXXX with a nonzero encoding byte (C10). -/

theorem head_latin1_drop (bytes : List Nat) (n e : Nat) (h : bytes.get? n = some e) :
    (latin1Decode (bytes.drop n)).head? = some (Char.ofNat e) := by
  rw [latin1Decode, List.head?_map, List.head?_drop, ← List.get?_eq_getElem?, h]
  rfl

/-- C10: a WXXX frame whose encoding byte exists and is nonzero is
decoded like a generic URL frame — the value is the ISO-8859-1 string
starting at frame byte 10, so the encoding byte itself becomes the first
character of the URL; byte 10 is skipped only when it is zero. -/
theorem claim_C10 (bytes : List Nat) (minor size e : Nat)
    (hid : bytes.take 4 = [87, 88, 88, 88])
    (h9 : bytes.get? 9 = some 0)
    (h10 : bytes.get? 10 = some e) (he : e ≠ 0) :
    (parseFrame bytes minor size).value =
      some (.text (latin1Decode (bytes.drop 10))) ∧
      (latin1Decode (bytes.drop 10)).head? = some (Char.ofNat e) := by
  have hidC : readBytesToUTF8 bytes (some 4) = ['W', 'X', 'X', 'X'] := by
    show utf8Decode (bytes.take 4) = _
    rw [hid]
    decide
  refine ⟨?_, head_latin1_drop bytes 10 e h10⟩
  simp only [parseFrame]
  rw [hidC]
  rw [if_neg (by rw [h9]; simp)]
  rw [if_neg (by decide)]
  rw [if_neg (by decide), if_pos (by decide)]
  rw [if_neg (by rw [h10]; simp [he])]
  rfl

/-- Witness WXXX frame for C10: encoding byte 1, payload "hi". -/
def c10Bytes : List Nat := [87, 88, 88, 88, 0, 0, 0, 3, 0, 0, 1, 104, 105]

/-- Witness for C10 at a concrete WXXX frame with encoding byte 1. -/
theorem claim_C10_witness :
    (parseFrame c10Bytes 3 3).value =
      some (.text (latin1Decode (c10Bytes.drop 10))) ∧
      (latin1Decode (c10Bytes.drop 10)).head? = some (Char.ofNat 1) :=
  claim_C10 c10Bytes 3 3 1 (by decide) (by decide) (by decide) (by decide)

/-! ## The TCON genre transformation (C4). -/

/-- C4 (amended): for a TCON frame with clear flags, writing `s` for the
decoded payload string: a string starting with the character `(` has
every complete `(<digits>)` group found anywhere in it looked up in the
genre table, comma-joined (it need not be wholly wrapped in groups); a
string starting with `(` but containing no complete group stays literal;
a string not starting with `(` goes through JavaScript `parseInt`, so a
leading integer — even with trailing non-digit characters — indexes the
genre table (negative or out-of-range indices give `undefined`); only a
string with no leading integer stays literal. -/
theorem claim_C4 (bytes : List Nat) (minor size : Nat) (s : List Char)
    (hid : bytes.take 4 = [84, 67, 79, 78]) (h9 : bytes.get? 9 = some 0)
    (hs : readBytesToString (bytes.drop 11) ((bytes.get? 10).getD 0) none = s) :
    (s.head? = some '(' → tconGroups s ≠ [] →
      (parseFrame bytes minor size).value = some (.text (List.intercalate [',']
        ((tconGroups s).map
          (fun ds => ((genreAt (digitsToNat ds)).map String.toList).getD []))))) ∧
    (s.head? = some '(' → tconGroups s = [] →
      (parseFrame bytes minor size).value = some (.text s)) ∧
    (s.head? ≠ some '(' → ∀ g, jsParseInt s = some g →
      (parseFrame bytes minor size).value = some (if 0 ≤ g then
        (match genreAt g.toNat with
         | some name => FrameValue.text name.toList
         | none => FrameValue.jsUndefined)
        else FrameValue.jsUndefined)) ∧
    (s.head? ≠ some '(' → jsParseInt s = none →
      (parseFrame bytes minor size).value = some (.text s)) := by
  have hidC : readBytesToUTF8 bytes (some 4) = ['T', 'C', 'O', 'N'] := by
    show utf8Decode (bytes.take 4) = _
    rw [hid]
    decide
  have hval : (parseFrame bytes minor size).value = some (tconTransform s) := by
    simp only [parseFrame]
    rw [hidC]
    rw [if_neg (by rw [h9]; simp)]
    rw [if_neg (by decide)]
    rw [if_pos (by decide)]
    rw [if_neg (by decide)]
    rw [hs]
    rfl
  refine ⟨?_, ?_, ?_, ?_⟩
  · intro hh hg
    rw [hval]
    cases hgs : tconGroups s with
    | nil => exact absurd hgs hg
    | cons a l => simp only [tconTransform, if_pos hh, hgs]
  · intro hh hg
    rw [hval]
    simp only [tconTransform, if_pos hh, hg]
  · intro hh g hg
    rw [hval]
    simp only [tconTransform, if_neg hh, hg]
  · intro hh hg
    rw [hval]
    simp only [tconTransform, if_neg hh, hg]

/-- Witness TCON frame for C4: encoding 0, payload the string (17). -/
def c4WBytes : List Nat := [84, 67, 79, 78, 0, 0, 0, 5, 0, 0, 0, 40, 49, 55, 41]

/-- Witness for C4: the frame above decodes through the genre table to
the entry at index 17. -/
theorem claim_C4_witness :
    (parseFrame c4WBytes 3 5).value = some (.text (List.intercalate [',']
        ((tconGroups "(17)".toList).map
          (fun ds => ((genreAt (digitsToNat ds)).map String.toList).getD [])))) ∧
      (parseFrame c4WBytes 3 5).value = some (.text "Rock".toList) :=
  ⟨(claim_C4 c4WBytes 3 5 "(17)".toList (by decide) (by decide)
      (by decide)).1 (by decide) (by decide),
    by decide⟩

/-- Counterexample TCON frame for C4 as stated: encoding 0, payload the
string 17a. -/
def c4CexBytes : List Nat := [84, 67, 79, 78, 0, 0, 0, 4, 0, 0, 0, 49, 55, 97]

/-- Counterexample to C4 as stated: the payload string 17a neither is
wrapped in parentheses groups nor wholly parses as a bare integer, so
the claim requires the literal string 17a to be kept; the code instead
applies JavaScript `parseInt`, obtains 17 and returns the genre-table
entry Rock. -/
theorem claim_C4_cex :
    readBytesToString (c4CexBytes.drop 11) 0 none = "17a".toList ∧
      ("17a".toList).head? ≠ some '(' ∧
      isBareInt "17a".toList = false ∧
      (parseFrame c4CexBytes 3 4).value = some (.text "Rock".toList) ∧
      (parseFrame c4CexBytes 3 4).value ≠ some (.text "17a".toList) := by
  refine ⟨by decide, by decide, by decide, by decide, by decide⟩

/-! ## The tag assembler (C8). -/

theorem assembleStep_ne (tags : Tags) (fr : FrameResult) (t : String)
    (h : fr.tag ≠ some t) : assembleStep tags fr t = tags t := by
  cases hft : fr.tag with
  | none => simp [assembleStep, hft]
  | some t2 =>
    have ht2 : ¬ t = t2 := fun hc => h (by rw [hft, hc])
    simp only [assembleStep, hft]
    by_cases harr : frameTypeValueMap fr.id = some "array"
    · rw [if_pos harr]
      cases hcur : tags t2 with
      | none => simp [ht2]
      | some tv =>
        cases tv with
        | one v => rfl
        | arr vs => simp [ht2]
    · rw [if_neg harr]
      simp [ht2]

theorem assemble_arr_aux (t : String) :
    ∀ (frames : List FrameResult) (init : Tags),
      (∀ fr ∈ frames, fr.tag = some t → frameTypeValueMap fr.id = some "array") →
      ((init t = none →
        List.foldl assembleStep init frames t =
          (if tagOccurrences t frames = [] then none
           else some (TagVal.arr (tagOccurrences t frames)))) ∧
       (∀ vs0, init t = some (TagVal.arr vs0) →
        List.foldl assembleStep init frames t =
          some (TagVal.arr (vs0 ++ tagOccurrences t frames)))) := by
  intro frames
  induction frames with
  | nil =>
    intro init hall
    refine ⟨?_, ?_⟩
    · intro h0
      simp [tagOccurrences, h0]
    · intro vs0 h0
      simp [tagOccurrences, h0]
  | cons fr fs ih =>
    intro init hall
    have hall' : ∀ f2 ∈ fs, f2.tag = some t → frameTypeValueMap f2.id = some "array" :=
      fun f2 hm => hall f2 (List.mem_cons_of_mem _ hm)
    by_cases hft : fr.tag = some t
    · have harr := hall fr (List.mem_cons_self _ _) hft
      have hocc : tagOccurrences t (fr :: fs) = fr.value :: tagOccurrences t fs := by
        simp [tagOccurrences, List.filterMap_cons, hft]
      refine ⟨?_, ?_⟩
      · intro h0
        have hstep : assembleStep init fr t = some (TagVal.arr [fr.value]) := by
          simp [assembleStep, hft, harr, h0]
        rw [List.foldl_cons, hocc]
        rw [(ih (assembleStep init fr) hall').2 [fr.value] hstep]
        simp
      · intro vs0 h0
        have hstep : assembleStep init fr t = some (TagVal.arr (vs0 ++ [fr.value])) := by
          simp [assembleStep, hft, harr, h0]
        rw [List.foldl_cons, hocc]
        rw [(ih (assembleStep init fr) hall').2 (vs0 ++ [fr.value]) hstep]
        simp
    · have hstept : assembleStep init fr t = init t := assembleStep_ne init fr t hft
      have hocc : tagOccurrences t (fr :: fs) = tagOccurrences t fs := by
        simp [tagOccurrences, List.filterMap_cons, hft]
      refine ⟨?_, ?_⟩
      · intro h0
        rw [List.foldl_cons, hocc]
        exact (ih _ hall').1 (by rw [hstept]; exact h0)
      · intro vs0 h0
        rw [List.foldl_cons, hocc]
        exact (ih _ hall').2 vs0 (by rw [hstept]; exact h0)

theorem assemble_single_aux (t : String) :
    ∀ (frames : List FrameResult) (init : Tags),
      (∀ fr ∈ frames, fr.tag = some t → frameTypeValueMap fr.id ≠ some "array") →
      List.foldl assembleStep init frames t =
        ((tagOccurrences t frames).getLast?).elim (init t)
          (fun v => some (TagVal.one v)) := by
  intro frames
  induction frames with
  | nil =>
    intro init _
    simp [tagOccurrences]
  | cons fr fs ih =>
    intro init hall
    have hall' : ∀ f2 ∈ fs, f2.tag = some t → frameTypeValueMap f2.id ≠ some "array" :=
      fun f2 hm => hall f2 (List.mem_cons_of_mem _ hm)
    by_cases hft : fr.tag = some t
    · have harr := hall fr (List.mem_cons_self _ _) hft
      have hstep : assembleStep init fr t = some (TagVal.one fr.value) := by
        simp [assembleStep, hft, harr]
      have hocc : tagOccurrences t (fr :: fs) = fr.value :: tagOccurrences t fs := by
        simp [tagOccurrences, List.filterMap_cons, hft]
      rw [List.foldl_cons, hocc, ih (assembleStep init fr) hall', hstep]
      cases hocc2 : tagOccurrences t fs with
      | nil => simp
      | cons b l =>
        rw [List.getLast?_cons_cons]
        cases hv : (b :: l).getLast? with
        | none =>
          rw [List.getLast?_eq_none_iff] at hv
          cases hv
        | some v => simp
    · have hstept : assembleStep init fr t = init t := assembleStep_ne init fr t hft
      have hocc : tagOccurrences t (fr :: fs) = tagOccurrences t fs := by
        simp [tagOccurrences, List.filterMap_cons, hft]
      rw [List.foldl_cons, hocc, ih (assembleStep init fr) hall', hstept]

/-- C8: folding decoded frames into the tag record, a semantic tag all
of whose frames carry an array-classified identifier accumulates every
occurrence, in encounter order, as an ordered list; a semantic tag none
of whose frames carry an array-classified identifier holds the value of
the last occurrence (each occurrence overwrites the previous one). -/
theorem claim_C8 (frames : List FrameResult) (t : String) :
    ((∀ fr ∈ frames, fr.tag = some t → frameTypeValueMap fr.id = some "array") →
      assembleTags frames t =
        (if tagOccurrences t frames = [] then none
         else some (TagVal.arr (tagOccurrences t frames)))) ∧
    ((∀ fr ∈ frames, fr.tag = some t → frameTypeValueMap fr.id ≠ some "array") →
      assembleTags frames t =
        ((tagOccurrences t frames).getLast?).map TagVal.one) := by
  constructor
  · intro hall
    exact (assemble_arr_aux t frames (fun _ => none) hall).1 rfl
  · intro hall
    rw [assembleTags, assemble_single_aux t frames (fun _ => none) hall]
    cases (tagOccurrences t frames).getLast? <;> rfl

/-- Witness frames for C8, array case: two comment frames in order. -/
def c8ArrFrames : List FrameResult :=
  [{ id := ['C', 'O', 'M', 'M'], tag := some "comments",
     value := some (.comment "eng".toList [] "a".toList) },
   { id := ['C', 'O', 'M', 'M'], tag := some "comments",
     value := some (.comment "fra".toList [] "b".toList) }]

/-- Witness frames for C8, overwrite case: two title frames in order. -/
def c8OneFrames : List FrameResult :=
  [{ id := ['T', 'I', 'T', '2'], tag := some "title",
     value := some (.text "x".toList) },
   { id := ['T', 'I', 'T', '2'], tag := some "title",
     value := some (.text "y".toList) }]

/-- Witness for C8 at the two concrete frame lists. -/
theorem claim_C8_witness :
    (assembleTags c8ArrFrames "comments" =
      (if tagOccurrences "comments" c8ArrFrames = [] then none
       else some (TagVal.arr (tagOccurrences "comments" c8ArrFrames)))) ∧
      (assembleTags c8OneFrames "title" =
        ((tagOccurrences "title" c8OneFrames).getLast?).map TagVal.one) :=
  ⟨(claim_C8 c8ArrFrames "comments").1 (by decide),
    (claim_C8 c8OneFrames "title").2 (by decide)⟩

end Id3
